import Mathlib

set_option maxHeartbeats 1000000

/-!
Verification development for the `pwm_audio` streaming engine
(`components/pwm_audio/pwm_audio.c`): a single-producer/single-consumer
ring buffer, the semaphore-based backpressure protocol between the
producer task and the timer-group interrupt handler, the PCM-to-duty
sample conversion in `pwm_audio_write`, and the session state machine.

All definitions are shallow embeddings of the corresponding C functions;
machine integers are modelled as `Nat`/`Int` with explicit `%`
reductions exactly where the C types truncate.
-/

/-- BUFFER_MIN_SIZE constant from pwm_audio.c (256UL). -/
def BUFFER_MIN_SIZE : Nat := 256

/-- The `ringBuf` struct of pwm_audio.c.  `buf` is the backing byte store
(modelled as a total map from index to byte), `head` is the next write
position, `tail` the next read position, `size` the capacity in bytes and
`is_give` the semaphore-give guard flag.  The `semaphore_rb` handle itself
is modelled separately in the system state (`SysState.sem`). -/
structure RingBuf where
  buf : Nat → Nat
  head : Nat
  tail : Nat
  size : Nat
  is_give : Nat

/-- rb_get_count: bytes currently stored, with wraparound arithmetic
(`if (rb->head >= tail) return head - tail; return size - (tail - head);`). -/
def rb_get_count (rb : RingBuf) : Nat :=
  if rb.tail ≤ rb.head then rb.head - rb.tail else rb.size - (rb.tail - rb.head)

/-- rb_get_free: `rb->size - rb_get_count(rb) - 1` (one slot kept empty). -/
def rb_get_free (rb : RingBuf) : Nat :=
  rb.size - rb_get_count rb - 1

/-- rb_flush: `rb->tail = rb->head = 0`. -/
def rb_flush (rb : RingBuf) : RingBuf :=
  { rb with head := 0, tail := 0 }

/-- rb_read_byte: returns `none` on empty (`tail == head`, ESP_FAIL in C),
otherwise the byte at `tail` and the buffer with `tail` advanced and
wrapped.  On failure the C function leaves `*outdata` untouched; callers
model that by keeping their previous value. -/
def rb_read_byte (rb : RingBuf) : Option (Nat × RingBuf) :=
  if rb.tail = rb.head then none
  else
    let outdata := rb.buf rb.tail
    let tail1 := rb.tail + 1
    let tail2 := if tail1 = rb.size then 0 else tail1
    some (outdata, { rb with tail := tail2 })

/-- rb_write_byte: computes `next_head`, fails (`none`, ESP_FAIL in C) when
`next_head == tail` (buffer full), otherwise stores the byte at `head`
(the `uint8_t` parameter truncates the value to `% 256`) and advances
`head`. -/
def rb_write_byte (rb : RingBuf) (indata : Nat) : Option RingBuf :=
  let next_head0 := rb.head + 1
  let next_head := if next_head0 = rb.size then 0 else next_head0
  if next_head = rb.tail then none
  else some { rb with
              buf := fun i => if i = rb.head then indata % 256 else rb.buf i,
              head := next_head }

/-- The state rb_create establishes after successful allocation:
`is_give = 0`, `head = tail = 0`, a zeroed byte store of the given size. -/
def rb_init (size : Nat) : RingBuf :=
  ⟨fun _ => 0, 0, 0, size, 0⟩

/-- rb_create: rejects sizes below `BUFFER_MIN_SIZE << 2` (= 1024),
otherwise produces the freshly initialised buffer. -/
def rb_create (size : Nat) : Option RingBuf :=
  if size < BUFFER_MIN_SIZE <<< 2 then none else some (rb_init size)

/-- One ring-buffer operation, as issued by the producer (`write`),
the interrupt consumer (`read`) or `pwm_audio_stop` (`flush`). -/
inductive RbOp where
  | write (b : Nat)
  | read
  | flush

/-- Apply one operation; a failed write or read leaves the buffer
unchanged (the C functions return ESP_FAIL without mutating state). -/
def applyOp (rb : RingBuf) : RbOp → RingBuf
  | .write b => (rb_write_byte rb b).getD rb
  | .read =>
      match rb_read_byte rb with
      | none => rb
      | some (_, rb2) => rb2
  | .flush => rb_flush rb

/-- Apply a sequence of operations left to right. -/
def applyOps (rb : RingBuf) (ops : List RbOp) : RingBuf :=
  ops.foldl applyOp rb

/-- Index invariant: both positions stay strictly inside the allocated
storage. -/
def RbInv (rb : RingBuf) : Prop :=
  rb.head < rb.size ∧ rb.tail < rb.size

theorem rb_write_byte_some {rb : RingBuf} {b : Nat} {rb2 : RingBuf}
    (h : rb_write_byte rb b = some rb2) :
    rb2.size = rb.size ∧ rb2.tail = rb.tail ∧ rb2.is_give = rb.is_give ∧
    rb2.head = (if rb.head + 1 = rb.size then 0 else rb.head + 1) := by
  simp only [rb_write_byte] at h
  split at h <;> split at h <;> cases h <;> simp_all

theorem rb_read_byte_some {rb : RingBuf} {b : Nat} {rb2 : RingBuf}
    (h : rb_read_byte rb = some (b, rb2)) :
    rb2.size = rb.size ∧ rb2.head = rb.head ∧ rb2.is_give = rb.is_give ∧
    rb2.buf = rb.buf ∧
    rb2.tail = (if rb.tail + 1 = rb.size then 0 else rb.tail + 1) := by
  simp only [rb_read_byte] at h
  split at h
  · exact absurd h (by simp)
  · cases h
    simp

theorem applyOp_inv {rb : RingBuf} (op : RbOp) (h : RbInv rb) :
    RbInv (applyOp rb op) ∧ (applyOp rb op).size = rb.size := by
  obtain ⟨h1, h2⟩ := h
  cases op with
  | write b =>
      simp only [applyOp]
      cases hw : rb_write_byte rb b with
      | none => simpa [RbInv] using ⟨h1, h2⟩
      | some rb2 =>
          obtain ⟨hs, ht, _, hh⟩ := rb_write_byte_some hw
          simp only [Option.getD_some]
          constructor
          · constructor
            · rw [hh, hs]; split <;> omega
            · rw [ht, hs]; exact h2
          · exact hs
  | read =>
      simp only [applyOp]
      cases hr : rb_read_byte rb with
      | none => simpa [RbInv] using ⟨h1, h2⟩
      | some p =>
          obtain ⟨b, rb2⟩ := p
          obtain ⟨hs, hh, _, _, ht⟩ := rb_read_byte_some hr
          constructor
          · constructor
            · rw [hh, hs]; exact h1
            · rw [ht, hs]; split <;> omega
          · exact hs
  | flush =>
      refine ⟨⟨?_, ?_⟩, rfl⟩ <;> simp [applyOp, rb_flush] <;> omega

theorem applyOps_inv {rb : RingBuf} (ops : List RbOp) (h : RbInv rb) :
    RbInv (applyOps rb ops) ∧ (applyOps rb ops).size = rb.size := by
  induction ops generalizing rb with
  | nil => exact ⟨h, rfl⟩
  | cons op ops ih =>
      have step := applyOp_inv op h
      have rest := ih step.1
      exact ⟨rest.1, by rw [applyOps] at rest ⊢; simp only [List.foldl_cons]
                        rw [rest.2, step.2]⟩

theorem rb_init_inv {size : Nat} (h : 0 < size) : RbInv (rb_init size) :=
  ⟨h, h⟩

theorem rb_get_count_le {rb : RingBuf} (h : RbInv rb) :
    rb_get_count rb ≤ rb.size - 1 := by
  obtain ⟨h1, h2⟩ := h
  unfold rb_get_count
  split <;> omega

theorem free_add_count {rb : RingBuf} (h : RbInv rb) :
    rb_get_free rb + rb_get_count rb = rb.size - 1 := by
  have hc := rb_get_count_le h
  have h1 := h.1
  unfold rb_get_free
  omega

theorem rb_write_byte_none_iff {rb : RingBuf} (b : Nat) (h : RbInv rb)
    (hs : 1 < rb.size) :
    rb_write_byte rb b = none ↔ rb_get_count rb = rb.size - 1 := by
  obtain ⟨h1, h2⟩ := h
  have hiff : rb_write_byte rb b = none ↔
      (if rb.head + 1 = rb.size then 0 else rb.head + 1) = rb.tail := by
    simp only [rb_write_byte]
    split <;> simp_all
  rw [hiff]
  unfold rb_get_count
  split <;> split <;> omega

/-- C1: starting from `head == tail == 0` with a fixed size greater than 1,
after any sequence of ring-buffer operations, `rb_get_free() +
rb_get_count() == size - 1` holds, and `rb_write_byte` fails (returns
`none`, leaving the buffer untouched) if and only if `rb_get_count() ==
size - 1`, i.e. the next head would equal the tail. -/
theorem rb_capacity_invariant_and_write_full_iff (size : Nat) (hs : 1 < size)
    (ops : List RbOp) (b : Nat) :
    rb_get_free (applyOps (rb_init size) ops) +
      rb_get_count (applyOps (rb_init size) ops) = size - 1 ∧
    (rb_write_byte (applyOps (rb_init size) ops) b = none ↔
      rb_get_count (applyOps (rb_init size) ops) = size - 1) := by
  have hinit : RbInv (rb_init size) := rb_init_inv (by omega)
  obtain ⟨hinv, hsz⟩ := applyOps_inv ops hinit
  have hsz' : (applyOps (rb_init size) ops).size = size := hsz
  constructor
  · rw [free_add_count hinv, hsz']
  · rw [rb_write_byte_none_iff b hinv (by rw [hsz']; exact hs), hsz']

/-- Witness for C1 at size 4 with a concrete write/write/read history. -/
theorem rb_capacity_invariant_and_write_full_iff_witness :
    rb_get_free (applyOps (rb_init 4) [RbOp.write 7, RbOp.write 8, RbOp.read]) +
      rb_get_count (applyOps (rb_init 4) [RbOp.write 7, RbOp.write 8, RbOp.read]) = 3 ∧
    (rb_write_byte (applyOps (rb_init 4) [RbOp.write 7, RbOp.write 8, RbOp.read]) 9 = none ↔
      rb_get_count (applyOps (rb_init 4) [RbOp.write 7, RbOp.write 8, RbOp.read]) = 3) :=
  rb_capacity_invariant_and_write_full_iff 4 (by decide)
    [RbOp.write 7, RbOp.write 8, RbOp.read] 9

/-- C10: for every ring buffer produced by `rb_create` (which enforces
`size ≥ 1024` and establishes `head = tail = 0`), every sequence of
write/read/flush operations preserves `head < size` and `tail < size`,
so the accesses `buf[head]` and `buf[tail]` stay inside the allocated
storage. -/
theorem rb_create_indices_in_bounds (size : Nat) (rb : RingBuf)
    (h : rb_create size = some rb) (ops : List RbOp) :
    (applyOps rb ops).head < (applyOps rb ops).size ∧
    (applyOps rb ops).tail < (applyOps rb ops).size := by
  unfold rb_create at h
  split at h
  · exact absurd h (by simp)
  · cases h
    rename_i hge
    have hsz : 0 < size := by
      simp only [not_lt] at hge
      have : (0 : Nat) < BUFFER_MIN_SIZE <<< 2 := by decide
      omega
    exact (applyOps_inv ops (rb_init_inv hsz)).1

/-- Witness for C10 at the minimum legal size with a concrete history. -/
theorem rb_create_indices_in_bounds_witness :
    (applyOps (rb_init 1024) [RbOp.write 5, RbOp.flush, RbOp.read]).head <
      (applyOps (rb_init 1024) [RbOp.write 5, RbOp.flush, RbOp.read]).size ∧
    (applyOps (rb_init 1024) [RbOp.write 5, RbOp.flush, RbOp.read]).tail <
      (applyOps (rb_init 1024) [RbOp.write 5, RbOp.flush, RbOp.read]).size :=
  rb_create_indices_in_bounds 1024 (rb_init 1024) rfl
    [RbOp.write 5, RbOp.flush, RbOp.read]

/-! ## Producer-side sample conversion (`pwm_audio_write`) -/

/-- Store a byte ignoring the ESP_FAIL result, exactly as the conversion
loops in `pwm_audio_write` do (`rb_write_byte(rb, value);` with the
return value discarded). -/
def rb_put (rb : RingBuf) (b : Nat) : RingBuf :=
  (rb_write_byte rb b).getD rb

/-- Fold a byte list into the ring buffer through `rb_put`. -/
def applyBytes (rb : RingBuf) (bs : List Nat) : RingBuf :=
  bs.foldl rb_put rb

/-- Decide whether every `rb_write_byte` call in a byte sequence would
succeed (never hit the buffer-full ESP_FAIL branch). -/
def writesOk : RingBuf → List Nat → Bool
  | _, [] => true
  | rb, b :: bs => (rb_write_byte rb b).isSome && writesOk (rb_put rb b) bs

/-- Reinterpret two little-endian bytes as the C `int16_t` value. -/
def toInt16 (n : Nat) : Int :=
  if n % 65536 < 32768 then ((n % 65536 : Nat) : Int)
  else ((n % 65536 : Nat) : Int) - 65536

/-- Reinterpret four little-endian bytes as the C `int32_t` value. -/
def toInt32 (n : Nat) : Int :=
  if n % 4294967296 < 2147483648 then ((n % 4294967296 : Nat) : Int)
  else ((n % 4294967296 : Nat) : Int) - 4294967296

/-- 8-bit source, duty resolution 8 (`shift >= 0` branch):
`value = inbuf[i] + 0x7f` in `uint8_t` arithmetic. -/
def conv8 (b : Nat) : Nat :=
  (b + 0x7f) % 256

/-- 8-bit source, duty resolution above 8 (`shift < 0` branch):
`temp = inbuf[i] + 0x7f; value = temp << shift` with `shift = duty - 8`,
`value` a `uint16_t`. -/
def conv8e (duty b : Nat) : Nat :=
  (((b + 0x7f) % 256) <<< (duty - 8)) % 65536

/-- 16-bit source: `temp = buf_16b[i]` (signed), `value = temp + 0x7fff`
in `uint16_t` arithmetic, then `value >>= shift` with
`shift = 16 - duty`. -/
def conv16 (duty lo hi : Nat) : Nat :=
  ((toInt16 (lo + 256 * hi) + 0x7fff).emod 65536).toNat >>> (16 - duty)

/-- 32-bit source: `temp = buf_32b[i]` (signed), `value = temp +
0x7fffffff` in `uint32_t` arithmetic, then `value >>= shift` with
`shift = 32 - duty`. -/
def conv32 (duty b0 b1 b2 b3 : Nat) : Nat :=
  ((toInt32 (b0 + 256 * b1 + 65536 * b2 + 16777216 * b3) + 0x7fffffff).emod
      4294967296).toNat >>> (32 - duty)

/-- The configuration fields of the handle that `pwm_audio_write`
consults: `bits_per_sample` and `config.duty_resolution`. -/
structure WriteCfg where
  bits_per_sample : Nat
  duty_resolution : Nat

/-- The converted per-sample values produced from the first
`bytes_can_write` input bytes, one entry per loop iteration of the
matching `switch` case in `pwm_audio_write`. -/
def sampleVals (cfg : WriteCfg) (inbuf : List Nat) (bcw : Nat) : List Nat :=
  if cfg.bits_per_sample = 8 then
    if 8 < cfg.duty_resolution then
      (List.range (bcw >>> 1)).map fun i => conv8e cfg.duty_resolution (inbuf.getD i 0)
    else
      (List.range bcw).map fun i => conv8 (inbuf.getD i 0)
  else if cfg.bits_per_sample = 16 then
    (List.range (bcw >>> 1)).map fun i =>
      conv16 cfg.duty_resolution (inbuf.getD (2 * i) 0) (inbuf.getD (2 * i + 1) 0)
  else if cfg.bits_per_sample = 32 then
    (List.range (bcw >>> 2)).map fun i =>
      conv32 cfg.duty_resolution (inbuf.getD (4 * i) 0) (inbuf.getD (4 * i + 1) 0)
        (inbuf.getD (4 * i + 2) 0) (inbuf.getD (4 * i + 3) 0)
  else []

/-- Lay the per-sample values out as the byte stream pushed through
`rb_write_byte`: two bytes (low, then `value >> 8`) per sample when the
duty resolution is above 8 bits, otherwise one. -/
def emitSamples (two : Bool) : List Nat → List Nat
  | [] => []
  | v :: rest => (if two then [v, v >>> 8] else [v]) ++ emitSamples two rest

/-- All bytes one wait-iteration of `pwm_audio_write` pushes into the
ring buffer for the aligned chunk `bcw`. -/
def emitBytes (cfg : WriteCfg) (inbuf : List Nat) (bcw : Nat) : List Nat :=
  emitSamples (decide (8 < cfg.duty_resolution)) (sampleVals cfg inbuf bcw)

/-- How far `inbuf` advances in one wait iteration: `bytes_can_write`,
except in the 8-bit expansion branch which halves it
(`bytes_can_write >>= 1`). -/
def consumedBytes (cfg : WriteCfg) (bcw : Nat) : Nat :=
  if cfg.bits_per_sample = 8 ∧ 8 < cfg.duty_resolution then bcw >>> 1 else bcw

/-- The `while (inbuf_len)` loop of `pwm_audio_write`.  `waits` is the
outcome trace of the successive `rb_wait_semaphore` calls (`true` =
semaphore obtained, `false` = timeout, in which case the C code sets
`res = ESP_FAIL` and retries).  The result is `none` when the trace is
exhausted while the loop still runs (the call has not returned), else
`some (rb, *bytes_written, res == ESP_OK)`. -/
def write_loop (cfg : WriteCfg) :
    List Bool → RingBuf → List Nat → Nat → Bool → Option (RingBuf × Nat × Bool)
  | waits, rb, inbuf, bw, res =>
    if inbuf.length = 0 then some (rb, bw, res)
    else
      match waits with
      | [] => none
      | true :: rest =>
          let free := rb_get_free rb
          let bcw0 := min inbuf.length free
          let bcw := bcw0 - bcw0 % 4
          if bcw = 0 then some (rb, bw + inbuf.length, true)
          else
            write_loop cfg rest (applyBytes rb (emitBytes cfg inbuf bcw))
              (inbuf.drop (consumedBytes cfg bcw)) (bw + consumedBytes cfg bcw) res
      | false :: rest => write_loop cfg rest rb inbuf bw false

/-- pwm_audio_write entry: `*bytes_written = 0`, `res = ESP_OK`, then the
wait loop. -/
def pwm_audio_write (cfg : WriteCfg) (waits : List Bool) (rb : RingBuf)
    (inbuf : List Nat) : Option (RingBuf × Nat × Bool) :=
  write_loop cfg waits rb inbuf 0 true

theorem rb_write_byte_free_pos {rb : RingBuf} (b : Nat) (h : RbInv rb)
    (hfree : 0 < rb_get_free rb) :
    ∃ rb2, rb_write_byte rb b = some rb2 ∧ RbInv rb2 ∧ rb2.size = rb.size ∧
      rb_get_count rb2 = rb_get_count rb + 1 ∧ rb2.is_give = rb.is_give := by
  have hc := rb_get_count_le h
  obtain ⟨h1, h2⟩ := h
  have hs2 : 1 < rb.size := by unfold rb_get_free at hfree; omega
  have hlt : rb_get_count rb < rb.size - 1 := by unfold rb_get_free at hfree; omega
  cases hw : rb_write_byte rb b with
  | none =>
      rw [rb_write_byte_none_iff b ⟨h1, h2⟩ hs2] at hw
      omega
  | some rb2 =>
      obtain ⟨hsz, ht, hg, hh⟩ := rb_write_byte_some hw
      refine ⟨rb2, rfl, ⟨?_, ?_⟩, hsz, ?_, hg⟩
      · rw [hh, hsz]; split <;> omega
      · rw [ht, hsz]; exact h2
      · unfold rb_get_count at hlt ⊢
        rw [hh, ht, hsz]
        split at hlt <;> split_ifs <;> omega

theorem applyBytes_ok (bs : List Nat) :
    ∀ (rb : RingBuf), RbInv rb → bs.length ≤ rb_get_free rb →
      writesOk rb bs = true ∧ RbInv (applyBytes rb bs) ∧
      (applyBytes rb bs).size = rb.size ∧
      rb_get_count (applyBytes rb bs) = rb_get_count rb + bs.length ∧
      (applyBytes rb bs).is_give = rb.is_give := by
  induction bs with
  | nil =>
      intro rb h _
      exact ⟨rfl, h, rfl, by simp [applyBytes], rfl⟩
  | cons b bs ih =>
      intro rb h hlen
      have hlen' : bs.length + 1 ≤ rb_get_free rb := by simpa using hlen
      obtain ⟨rb2, hw, hinv2, hsz2, hcnt2, hg2⟩ :=
        rb_write_byte_free_pos b h (by omega)
      have hput : rb_put rb b = rb2 := by simp [rb_put, hw]
      have hfree2 : rb_get_free rb2 = rb_get_free rb - 1 := by
        have hc := rb_get_count_le h
        have h1 := h.1
        unfold rb_get_free
        rw [hsz2, hcnt2]
        omega
      obtain ⟨hok, hinv3, hsz3, hcnt3, hg3⟩ := ih rb2 hinv2 (by omega)
      have happ : applyBytes rb (b :: bs) = applyBytes rb2 bs := by
        simp [applyBytes, hput]
      refine ⟨?_, ?_, ?_, ?_, ?_⟩
      · simp [writesOk, hw, hput, hok]
      · rw [happ]; exact hinv3
      · rw [happ, hsz3, hsz2]
      · rw [happ, hcnt3, hcnt2]; simp; omega
      · rw [happ, hg3, hg2]

theorem shiftRight_one (n : Nat) : n >>> 1 = n / 2 := by
  rw [Nat.shiftRight_eq_div_pow]

theorem shiftRight_two (n : Nat) : n >>> 2 = n / 4 := by
  rw [Nat.shiftRight_eq_div_pow]

theorem emitSamples_length (two : Bool) (vs : List Nat) :
    (emitSamples two vs).length = (if two then 2 else 1) * vs.length := by
  induction vs with
  | nil => simp [emitSamples]
  | cons v rest ih => cases two <;> simp [emitSamples, ih] <;> omega

theorem emitBytes_length_le (cfg : WriteCfg) (inbuf : List Nat) (bcw : Nat) :
    (emitBytes cfg inbuf bcw).length ≤ bcw := by
  unfold emitBytes
  rw [emitSamples_length]
  unfold sampleVals
  have e1 := shiftRight_one bcw
  have e2 := shiftRight_two bcw
  split_ifs <;> simp_all <;> omega

/-- C9: within one successful wait iteration of `pwm_audio_write` (no
concurrent consumer), the conversion loop emits at most
`bytes_can_write = (min inbuf_len free) & ~3` bytes into the ring buffer,
where `free = rb_get_free()` at the start of the iteration, and therefore
every `rb_write_byte` call succeeds: the buffer-full failure branch is
unreachable during conversion. -/
theorem conversion_loop_writes_never_fail (cfg : WriteCfg) (rb : RingBuf)
    (inbuf : List Nat) (h : RbInv rb) :
    (emitBytes cfg inbuf
        (min inbuf.length (rb_get_free rb) -
          min inbuf.length (rb_get_free rb) % 4)).length ≤
      min inbuf.length (rb_get_free rb) -
        min inbuf.length (rb_get_free rb) % 4 ∧
    writesOk rb (emitBytes cfg inbuf
        (min inbuf.length (rb_get_free rb) -
          min inbuf.length (rb_get_free rb) % 4)) = true := by
  have hle := emitBytes_length_le cfg inbuf
    (min inbuf.length (rb_get_free rb) - min inbuf.length (rb_get_free rb) % 4)
  refine ⟨hle, ?_⟩
  have hbcw : min inbuf.length (rb_get_free rb) -
      min inbuf.length (rb_get_free rb) % 4 ≤ rb_get_free rb := by omega
  exact (applyBytes_ok _ rb h (le_trans hle hbcw)).1

/-- Witness for C9: 16-bit samples at duty resolution 10 into a fresh
2048-byte buffer. -/
theorem conversion_loop_writes_never_fail_witness :
    writesOk (rb_init 2048) (emitBytes ⟨16, 10⟩ [1, 2, 3, 4]
        (min (List.length [1, 2, 3, 4]) (rb_get_free (rb_init 2048)) -
          min (List.length [1, 2, 3, 4]) (rb_get_free (rb_init 2048)) % 4)) = true :=
  (conversion_loop_writes_never_fail ⟨16, 10⟩ (rb_init 2048) [1, 2, 3, 4]
    ⟨by decide, by decide⟩).2

theorem write_loop_all_timeouts (cfg : WriteCfg) (n : Nat) :
    ∀ (rb : RingBuf) (inbuf : List Nat) (bw : Nat) (res : Bool),
      inbuf.length ≠ 0 →
      write_loop cfg (List.replicate n false) rb inbuf bw res = none := by
  induction n with
  | zero =>
      intro rb inbuf bw res h
      simp [write_loop, h]
  | succ n ih =>
      intro rb inbuf bw res h
      rw [List.replicate_succ, write_loop]
      simp only [h, if_false]
      exact ih rb inbuf bw false h

/-- C3 (code bug): a `rb_wait_semaphore` timeout does not make
`pwm_audio_write` return.  First conjunct: if every wait times out, the
call never returns (the loop retries forever — `none` for every finite
trace length).  Second conjunct: after a timeout followed by a successful
wait, the call returns the FULL requested length (4 of 4 bytes) together
with the error flag, not a short count as the claim requires. -/
theorem pwm_audio_write_timeout_never_returns :
    (∀ n : Nat, pwm_audio_write ⟨16, 10⟩ (List.replicate n false)
        (rb_init 2048) [1, 2, 3, 4] = none) ∧
    (pwm_audio_write ⟨16, 10⟩ [false, true] (rb_init 2048) [1, 2, 3, 4]).map
        (fun r => (r.2.1, r.2.2)) = some (4, false) := by
  constructor
  · intro n
    exact write_loop_all_timeouts ⟨16, 10⟩ n (rb_init 2048) [1, 2, 3, 4] 0 true
      (by decide)
  · decide

theorem write_loop_step_true (cfg : WriteCfg) (rest : List Bool) (rb : RingBuf)
    (inbuf : List Nat) (bw : Nat) (res : Bool) (h : inbuf.length ≠ 0) :
    write_loop cfg (true :: rest) rb inbuf bw res =
      if min inbuf.length (rb_get_free rb) - min inbuf.length (rb_get_free rb) % 4 = 0 then
        some (rb, bw + inbuf.length, true)
      else
        write_loop cfg rest
          (applyBytes rb (emitBytes cfg inbuf
            (min inbuf.length (rb_get_free rb) - min inbuf.length (rb_get_free rb) % 4)))
          (inbuf.drop (consumedBytes cfg
            (min inbuf.length (rb_get_free rb) - min inbuf.length (rb_get_free rb) % 4)))
          (bw + consumedBytes cfg
            (min inbuf.length (rb_get_free rb) - min inbuf.length (rb_get_free rb) % 4))
          res := by
  rw [write_loop]
  simp [h]

theorem emitBytes_length_eq (cfg : WriteCfg) (inbuf : List Nat) (bcw : Nat)
    (hbits : cfg.bits_per_sample = 8 ∨ cfg.bits_per_sample = 16 ∨
      cfg.bits_per_sample = 32)
    (hnoexp : ¬(cfg.bits_per_sample = 8 ∧ 8 < cfg.duty_resolution)) :
    (emitBytes cfg inbuf bcw).length =
      (if 8 < cfg.duty_resolution then 2 else 1) *
        (bcw / (cfg.bits_per_sample / 8)) := by
  unfold emitBytes
  rw [emitSamples_length]
  unfold sampleVals
  rcases hbits with h8 | h16 | h32
  · have hd : ¬(8 < cfg.duty_resolution) := fun hd => hnoexp ⟨h8, hd⟩
    simp [h8, hd]
  · have h8 : cfg.bits_per_sample ≠ 8 := by omega
    simp [h16, h8, shiftRight_one]
  · have h8 : cfg.bits_per_sample ≠ 8 := by omega
    have h16 : cfg.bits_per_sample ≠ 16 := by omega
    simp [h32, h8, h16, shiftRight_two]

/-- C5 counterexample: `pwm_audio_write` with 16-bit samples at duty
resolution 8 and input length 6 (not a multiple of 4) into a fresh
2048-byte ring buffer reports `bytes_written = 6` with success, but the
number of bytes that physically entered the ring buffer is 2, not
`6 - 6 % 4 = 4` as the claim states (the converter stores one byte per
two-byte sample at duty resolutions of at most 8). -/
theorem write_misaligned_occupancy_counterexample :
    (pwm_audio_write ⟨16, 8⟩ [true, true] (rb_init 2048)
        [10, 20, 30, 40, 50, 60]).map
        (fun r => (r.2.1, r.2.2, rb_get_count r.1)) = some (6, true, 2) ∧
    (2 : Nat) ≠ 6 - 6 % 4 := by
  constructor
  · rfl
  · decide

/-- C5 (amended): for input length `N` not divisible by 4 and a fresh ring
buffer with room for the aligned part, `pwm_audio_write` reports
`bytes_written = N` and success, the trailing `N mod 4` bytes are
silently discarded, and the number of bytes that physically enter the
ring buffer is the converted size of the aligned part `N - N mod 4`:
equal to it for byte-preserving formats (16-bit at duty above 8, 8-bit at
duty 8), and scaled by the conversion ratio otherwise (half for 16-bit at
duty at most 8 and for 32-bit at duty above 8, a quarter for 32-bit at
duty at most 8).  The 8-bit expansion branch (8-bit source, duty above 8)
consumes input at half rate and is excluded here. -/
theorem write_misaligned_tail_discard_amended (cfg : WriteCfg) (size : Nat)
    (inbuf : List Nat)
    (hbits : cfg.bits_per_sample = 8 ∨ cfg.bits_per_sample = 16 ∨
      cfg.bits_per_sample = 32)
    (hnoexp : ¬(cfg.bits_per_sample = 8 ∧ 8 < cfg.duty_resolution))
    (hmis : inbuf.length % 4 ≠ 0)
    (hfree : inbuf.length < size) :
    ∃ rb2, pwm_audio_write cfg [true, true] (rb_init size) inbuf =
        some (rb2, inbuf.length, true) ∧
      rb_get_count rb2 =
        (if 8 < cfg.duty_resolution then 2 else 1) *
          ((inbuf.length - inbuf.length % 4) / (cfg.bits_per_sample / 8)) := by
  have hN0 : inbuf.length ≠ 0 := by omega
  have hfree0 : rb_get_free (rb_init size) = size - 1 := by
    simp [rb_get_free, rb_get_count, rb_init]
  have hmin : min inbuf.length (rb_get_free (rb_init size)) = inbuf.length := by
    rw [hfree0]; omega
  unfold pwm_audio_write
  rw [write_loop_step_true cfg [true] (rb_init size) inbuf 0 true hN0]
  rw [hmin]
  by_cases hm0 : inbuf.length - inbuf.length % 4 = 0
  · rw [if_pos hm0]
    refine ⟨rb_init size, by simp, ?_⟩
    rw [hm0]
    simp [rb_get_count, rb_init]
  · rw [if_neg hm0]
    have hle := emitBytes_length_le cfg inbuf (inbuf.length - inbuf.length % 4)
    have hinv0 : RbInv (rb_init size) := rb_init_inv (by omega)
    obtain ⟨-, -, -, hcnt, -⟩ :=
      applyBytes_ok (emitBytes cfg inbuf (inbuf.length - inbuf.length % 4))
        (rb_init size) hinv0 (by rw [hfree0]; omega)
    have hcons : consumedBytes cfg (inbuf.length - inbuf.length % 4) =
        inbuf.length - inbuf.length % 4 := by
      unfold consumedBytes
      rw [if_neg hnoexp]
    rw [hcons]
    have hdrop : (inbuf.drop (inbuf.length - inbuf.length % 4)).length =
        inbuf.length % 4 := by
      rw [List.length_drop]
      omega
    have hd0 : (inbuf.drop (inbuf.length - inbuf.length % 4)).length ≠ 0 := by
      rw [hdrop]; exact hmis
    rw [write_loop_step_true cfg []
      (applyBytes (rb_init size) (emitBytes cfg inbuf (inbuf.length - inbuf.length % 4)))
      (inbuf.drop (inbuf.length - inbuf.length % 4))
      (0 + (inbuf.length - inbuf.length % 4)) true hd0]
    have hz : min (inbuf.drop (inbuf.length - inbuf.length % 4)).length
        (rb_get_free (applyBytes (rb_init size)
          (emitBytes cfg inbuf (inbuf.length - inbuf.length % 4)))) -
        min (inbuf.drop (inbuf.length - inbuf.length % 4)).length
        (rb_get_free (applyBytes (rb_init size)
          (emitBytes cfg inbuf (inbuf.length - inbuf.length % 4)))) % 4 = 0 := by
      rw [hdrop]
      omega
    rw [if_pos hz]
    refine ⟨applyBytes (rb_init size)
      (emitBytes cfg inbuf (inbuf.length - inbuf.length % 4)), ?_, ?_⟩
    · rw [hdrop]
      have : 0 + (inbuf.length - inbuf.length % 4) + inbuf.length % 4 =
          inbuf.length := by omega
      rw [this]
    · rw [hcnt, emitBytes_length_eq cfg inbuf _ hbits hnoexp]
      simp [rb_get_count, rb_init]

/-- Witness for the amended C5: 16-bit samples at duty 10, input length 6. -/
theorem write_misaligned_tail_discard_amended_witness :
    ∃ rb2, pwm_audio_write ⟨16, 10⟩ [true, true] (rb_init 2048)
        [1, 2, 3, 4, 5, 6] = some (rb2, 6, true) ∧
      rb_get_count rb2 = (if 8 < 10 then 2 else 1) * ((6 - 6 % 4) / (16 / 8)) :=
  write_misaligned_tail_discard_amended ⟨16, 10⟩ 2048 [1, 2, 3, 4, 5, 6]
    (by decide) (by decide) (by decide) (by decide)

/-! ## Interrupt-context consumer (`timer_group_isr`) -/

/-- CHANNEL_LEFT_MASK from pwm_audio.c. -/
def CHANNEL_LEFT_MASK : Nat := 1

/-- CHANNEL_RIGHT_MASK from pwm_audio.c. -/
def CHANNEL_RIGHT_MASK : Nat := 2

/-- The handle fields the interrupt handler consults: `channel_mask`,
`channel_set_num` and `config.duty_resolution`. -/
structure IsrConfig where
  channel_mask : Nat
  channel_set_num : Nat
  duty_resolution : Nat

/-- The `static uint8_t wave_h, wave_l; static uint16_t value;` locals of
`timer_group_isr`; they persist across invocations and start zeroed. -/
structure IsrStatics where
  wave_h : Nat
  wave_l : Nat
  value : Nat

/-- One `rb_read_byte(rb, &x)` call: on ESP_FAIL the output variable
keeps its current value `cur`.  Returns the buffer, the (possibly
unchanged) variable and whether the read returned ESP_OK. -/
def isr_read (rb : RingBuf) (cur : Nat) : RingBuf × Nat × Bool :=
  match rb_read_byte rb with
  | none => (rb, cur, false)
  | some (b, rb2) => (rb2, b, true)

/-- Result of one channel block of the handler: the threaded ring buffer
and statics, the duty value pushed to the actuator (if any), and how many
`rb_read_byte` calls the block performed. -/
structure ChanResult where
  rb : RingBuf
  st : IsrStatics
  out : Option Nat
  reads : Nat

/-- The left-channel block of `timer_group_isr` (the
`if (handle->channel_mask & CHANNEL_LEFT_MASK)` block): at duty
resolution above 8 read low then high byte and push
`(wave_h << 8) | wave_l` when the high read succeeds; otherwise read and
push a single byte.  A failed read skips the actuator update. -/
def isr_left (cfg : IsrConfig) (rb : RingBuf) (st : IsrStatics) : ChanResult :=
  if cfg.channel_mask &&& CHANNEL_LEFT_MASK ≠ 0 then
    if 8 < cfg.duty_resolution then
      let r1 := isr_read rb st.wave_l
      let r2 := isr_read r1.1 st.wave_h
      if r2.2.2 then
        let v := ((r2.2.1 <<< 8) ||| r1.2.1) % 65536
        ⟨r2.1, ⟨r2.2.1, r1.2.1, v⟩, some v, 2⟩
      else
        ⟨r2.1, ⟨r2.2.1, r1.2.1, st.value⟩, none, 2⟩
    else
      let r1 := isr_read rb st.wave_h
      if r1.2.2 then
        ⟨r1.1, ⟨r1.2.1, st.wave_l, st.value⟩, some r1.2.1, 1⟩
      else
        ⟨r1.1, ⟨r1.2.1, st.wave_l, st.value⟩, none, 1⟩
  else ⟨rb, st, none, 0⟩

/-- The right-channel block of `timer_group_isr`: if the right channel is
enabled and the source is mono, reuse the value just computed for the
left channel with no ring-buffer read; if enabled and the source is
stereo, do an independent read of the same shape as the left block; if
disabled while the source is stereo, drain bytes from the ring buffer
without touching any actuator (note the code reads `wave_h` twice, or
once at low duty resolution, and then reads `wave_l` one more time). -/
def isr_right (cfg : IsrConfig) (rb : RingBuf) (st : IsrStatics) : ChanResult :=
  if cfg.channel_mask &&& CHANNEL_RIGHT_MASK ≠ 0 then
    if cfg.channel_set_num = 1 then
      if 8 < cfg.duty_resolution then
        ⟨rb, st, some st.value, 0⟩
      else
        ⟨rb, st, some st.wave_h, 0⟩
    else
      if 8 < cfg.duty_resolution then
        let r1 := isr_read rb st.wave_l
        let r2 := isr_read r1.1 st.wave_h
        if r2.2.2 then
          let v := ((r2.2.1 <<< 8) ||| r1.2.1) % 65536
          ⟨r2.1, ⟨r2.2.1, r1.2.1, v⟩, some v, 2⟩
        else
          ⟨r2.1, ⟨r2.2.1, r1.2.1, st.value⟩, none, 2⟩
      else
        let r1 := isr_read rb st.wave_h
        if r1.2.2 then
          ⟨r1.1, ⟨r1.2.1, st.wave_l, st.value⟩, some r1.2.1, 1⟩
        else
          ⟨r1.1, ⟨r1.2.1, st.wave_l, st.value⟩, none, 1⟩
  else
    if cfg.channel_set_num = 2 then
      if 8 < cfg.duty_resolution then
        let r1 := isr_read rb st.wave_h
        let r2 := isr_read r1.1 r1.2.1
        let r3 := isr_read r2.1 st.wave_l
        ⟨r3.1, ⟨r2.2.1, r3.2.1, st.value⟩, none, 3⟩
      else
        let r1 := isr_read rb st.wave_h
        let r3 := isr_read r1.1 st.wave_l
        ⟨r3.1, ⟨r1.2.1, r3.2.1, st.value⟩, none, 2⟩
    else ⟨rb, st, none, 0⟩

/-- The semaphore block at the end of `timer_group_isr`: when
`is_give == 0` and `rb_get_free() > BUFFER_MIN_SIZE`, set `is_give = 1`
and give the semaphore from ISR context. -/
def isr_sem (rb : RingBuf) : RingBuf × Bool :=
  if rb.is_give = 0 ∧ BUFFER_MIN_SIZE < rb_get_free rb then
    ({ rb with is_give := 1 }, true)
  else (rb, false)

/-- Everything one `timer_group_isr` invocation produces. -/
structure IsrResult where
  rb : RingBuf
  st : IsrStatics
  leftOut : Option Nat
  rightOut : Option Nat
  rightReads : Nat
  semGive : Bool

/-- One invocation of `timer_group_isr` (after the hardware interrupt
clear / alarm re-arm, which touch no modelled state): the left-channel
block, then the right-channel block, then the semaphore give. -/
def timer_group_isr (cfg : IsrConfig) (rb : RingBuf) (st : IsrStatics) :
    IsrResult :=
  let l := isr_left cfg rb st
  let r := isr_right cfg l.rb l.st
  let g := isr_sem r.rb
  ⟨g.1, r.st, l.out, r.out, r.reads, g.2⟩

/-- A concrete ring buffer holding 8 bytes, used for the C2 evidence. -/
def rbC2 : RingBuf :=
  ⟨fun i => i + 1, 8, 0, 1024, 0⟩

/-- C2 (code bug evidence): with a stereo source (`channel_set_num = 2`)
and duty resolution 10, an ISR invocation with the right channel disabled
performs 3 `rb_read_byte` calls in the right-channel section (the code
reads `wave_h` twice and then `wave_l` once more), while with the right
channel enabled it performs only 2; at duty resolution 8 the counts are
2 versus 1.  Consequently total per-period consumption is 5 bytes versus
4 (3 versus 2 at duty 8): the ring buffer does NOT advance identically,
contradicting the claim. -/
theorem isr_right_disabled_discard_extra_read :
    (timer_group_isr ⟨1, 2, 10⟩ rbC2 ⟨0, 0, 0⟩).rightReads = 3 ∧
    (timer_group_isr ⟨3, 2, 10⟩ rbC2 ⟨0, 0, 0⟩).rightReads = 2 ∧
    rb_get_count (timer_group_isr ⟨1, 2, 10⟩ rbC2 ⟨0, 0, 0⟩).rb = 8 - 5 ∧
    rb_get_count (timer_group_isr ⟨3, 2, 10⟩ rbC2 ⟨0, 0, 0⟩).rb = 8 - 4 ∧
    (timer_group_isr ⟨1, 2, 8⟩ rbC2 ⟨0, 0, 0⟩).rightReads = 2 ∧
    (timer_group_isr ⟨3, 2, 8⟩ rbC2 ⟨0, 0, 0⟩).rightReads = 1 := by
  decide

/-- C6 counterexample: mono source (`channel_set_num = 1`), both channels
enabled, duty resolution 10.  The first invocation consumes the only
queued sample (value 1023) and delivers it to both actuators; on the
second invocation the buffer is empty, so the left actuator receives no
update, yet the right actuator is still driven (with the stale latched
value 1023) — the values delivered in that invocation are not equal. -/
theorem isr_mono_upmix_counterexample :
    (timer_group_isr ⟨3, 1, 10⟩
        (timer_group_isr ⟨3, 1, 10⟩ (applyBytes (rb_init 2048) [255, 3])
          ⟨0, 0, 0⟩).rb
        (timer_group_isr ⟨3, 1, 10⟩ (applyBytes (rb_init 2048) [255, 3])
          ⟨0, 0, 0⟩).st).leftOut = none ∧
    (timer_group_isr ⟨3, 1, 10⟩
        (timer_group_isr ⟨3, 1, 10⟩ (applyBytes (rb_init 2048) [255, 3])
          ⟨0, 0, 0⟩).rb
        (timer_group_isr ⟨3, 1, 10⟩ (applyBytes (rb_init 2048) [255, 3])
          ⟨0, 0, 0⟩).st).rightOut = some 1023 := by
  decide

/-- C6 (amended): with a mono source and both physical channels enabled,
the right-channel path performs no ring-buffer read, and whenever a duty
value is delivered to the left actuator, the value delivered to the right
actuator in that same invocation is the same one; when the left read
fails (buffer empty) the left actuator is skipped but the right actuator
is still driven with the previously latched value. -/
theorem isr_left_out_latched (cfg : IsrConfig) (rb : RingBuf) (st : IsrStatics)
    (v : Nat) (h : (isr_left cfg rb st).out = some v) :
    (if 8 < cfg.duty_resolution then (isr_left cfg rb st).st.value
     else (isr_left cfg rb st).st.wave_h) = v := by
  unfold isr_left at h ⊢
  by_cases hm : cfg.channel_mask &&& CHANNEL_LEFT_MASK ≠ 0
  · by_cases hd : 8 < cfg.duty_resolution
    · cases hok : (isr_read (isr_read rb st.wave_l).1 st.wave_h).2.2 <;>
        simp [hm, hd, hok] at h ⊢ <;> simp [h]
    · cases hok : (isr_read rb st.wave_h).2.2 <;>
        simp [hm, hd, hok] at h ⊢ <;> simp [h]
  · simp [hm] at h

theorem isr_mono_upmix_amended (cfg : IsrConfig) (rb : RingBuf)
    (st : IsrStatics)
    (hl : cfg.channel_mask &&& CHANNEL_LEFT_MASK ≠ 0)
    (hr : cfg.channel_mask &&& CHANNEL_RIGHT_MASK ≠ 0)
    (hmono : cfg.channel_set_num = 1) :
    (timer_group_isr cfg rb st).rightReads = 0 ∧
    (∀ v, (timer_group_isr cfg rb st).leftOut = some v →
      (timer_group_isr cfg rb st).rightOut = some v) ∧
    ((timer_group_isr cfg rb st).rightOut).isSome = true := by
  have hrr : (timer_group_isr cfg rb st).rightReads =
      (isr_right cfg (isr_left cfg rb st).rb (isr_left cfg rb st).st).reads := rfl
  have hro : (timer_group_isr cfg rb st).rightOut =
      (isr_right cfg (isr_left cfg rb st).rb (isr_left cfg rb st).st).out := rfl
  have hlo : (timer_group_isr cfg rb st).leftOut = (isr_left cfg rb st).out := rfl
  have hright : isr_right cfg (isr_left cfg rb st).rb (isr_left cfg rb st).st =
      if 8 < cfg.duty_resolution then
        ⟨(isr_left cfg rb st).rb, (isr_left cfg rb st).st,
          some (isr_left cfg rb st).st.value, 0⟩
      else
        ⟨(isr_left cfg rb st).rb, (isr_left cfg rb st).st,
          some (isr_left cfg rb st).st.wave_h, 0⟩ := by
    unfold isr_right
    rw [if_pos hr, if_pos hmono]
  refine ⟨?_, ?_, ?_⟩
  · rw [hrr, hright]
    split <;> rfl
  · intro v hv
    rw [hlo] at hv
    have hlatch := isr_left_out_latched cfg rb st v hv
    rw [hro, hright]
    by_cases hd : 8 < cfg.duty_resolution
    · rw [if_pos hd] at hlatch ⊢
      simp [hlatch]
    · rw [if_neg hd] at hlatch ⊢
      simp [hlatch]
  · rw [hro, hright]
    split <;> simp

/-- Witness for the amended C6 at a concrete configuration and buffer. -/
theorem isr_mono_upmix_amended_witness :
    (timer_group_isr ⟨3, 1, 10⟩ (applyBytes (rb_init 2048) [255, 3])
        ⟨0, 0, 0⟩).rightReads = 0 ∧
    ((timer_group_isr ⟨3, 1, 10⟩ (applyBytes (rb_init 2048) [255, 3])
        ⟨0, 0, 0⟩).rightOut).isSome = true :=
  ⟨(isr_mono_upmix_amended ⟨3, 1, 10⟩ (applyBytes (rb_init 2048) [255, 3])
      ⟨0, 0, 0⟩ (by decide) (by decide) (by decide)).1,
   (isr_mono_upmix_amended ⟨3, 1, 10⟩ (applyBytes (rb_init 2048) [255, 3])
      ⟨0, 0, 0⟩ (by decide) (by decide) (by decide)).2.2⟩

/-! ## C4: 16-bit/duty-10 round trip through write and the ISR -/

theorem lor_reassemble (v : Nat) (hv : v < 65536) :
    ((v >>> 8) <<< 8) ||| v % 256 = v := by
  apply Nat.eq_of_testBit_eq
  intro i
  simp only [Nat.testBit_or, Nat.testBit_shiftLeft, Nat.testBit_shiftRight]
  have h256 : (256 : Nat) = 2 ^ 8 := by norm_num
  rw [h256, Nat.testBit_mod_two_pow]
  by_cases hi : 8 ≤ i
  · have hadd : 8 + (i - 8) = i := by omega
    simp [hi, hadd, show ¬(i < 8) by omega]
  · simp [hi, show i < 8 by omega]

theorem reconstruct16 (v : Nat) (hv : v < 65536) :
    ((((v >>> 8) % 256) <<< 8) ||| v % 256) % 65536 = v := by
  have h1 : v >>> 8 < 256 := by
    rw [Nat.shiftRight_eq_div_pow]
    norm_num
    omega
  rw [Nat.mod_eq_of_lt h1, lor_reassemble v hv, Nat.mod_eq_of_lt hv]

theorem conv16_lt (duty lo hi : Nat) : conv16 duty lo hi < 65536 := by
  unfold conv16
  have h1 : (0 : Int) ≤ (toInt16 (lo + 256 * hi) + 0x7fff).emod 65536 :=
    Int.emod_nonneg _ (by norm_num)
  have h2 : (toInt16 (lo + 256 * hi) + 0x7fff).emod 65536 < 65536 :=
    Int.emod_lt_of_pos _ (by norm_num)
  have h3 : ((toInt16 (lo + 256 * hi) + 0x7fff).emod 65536).toNat < 65536 := by
    omega
  rw [Nat.shiftRight_eq_div_pow]
  exact lt_of_le_of_lt (Nat.div_le_self _ _) h3

theorem toInt16_bounds (n : Nat) : -32768 ≤ toInt16 n ∧ toInt16 n ≤ 32767 := by
  unfold toInt16
  have h := Nat.mod_lt n (show 0 < 65536 by norm_num)
  split <;> omega

theorem conv16_eq_formula (lo hi : Nat)
    (hne : toInt16 (lo + 256 * hi) ≠ -32768) :
    (conv16 10 lo hi : Int) = (toInt16 (lo + 256 * hi) + 32767) / 64 := by
  obtain ⟨hb1, hb2⟩ := toInt16_bounds (lo + 256 * hi)
  have h0 : (0 : Int) ≤ toInt16 (lo + 256 * hi) + 32767 := by omega
  have h1 : toInt16 (lo + 256 * hi) + 32767 < 65536 := by omega
  unfold conv16
  have hmod : (toInt16 (lo + 256 * hi) + 0x7fff).emod 65536 =
      toInt16 (lo + 256 * hi) + 32767 := Int.emod_eq_of_lt h0 h1
  rw [hmod, Nat.shiftRight_eq_div_pow]
  norm_num
  omega

/-- A single invocation of the handler on a buffer freshly loaded with the
two little-endian byte pairs `[a, b, a, b]` delivers to the left channel
the 16-bit value reassembled from the stored bytes. -/
theorem write4_isr_roundtrip (a b : Nat) :
    (timer_group_isr ⟨1, 2, 10⟩ (applyBytes (rb_init 2048) [a, b, a, b])
        ⟨0, 0, 0⟩).leftOut =
      some ((((b % 256) <<< 8) ||| (a % 256)) % 65536) := rfl

/-- C4 counterexample: the sample `s = -32768` (bytes `0x00 0x80`).  The
duty value reconstructed from the two bytes `pwm_audio_write` queued is
1023 (the 16-bit offset addition `-32768 + 0x7fff` wraps to 65535), while
the claimed formula `(s + 32767) >> 6` is negative: neither truncating
division (0) nor flooring division/arithmetic shift (-1) equals 1023, so
the claim fails at this extreme. -/
theorem write16_duty10_extreme_counterexample :
    (pwm_audio_write ⟨16, 10⟩ [true] (rb_init 2048) [0, 128, 0, 128]).map
        (fun r => (timer_group_isr ⟨1, 2, 10⟩ r.1 ⟨0, 0, 0⟩).leftOut) =
      some (some 1023) ∧
    toInt16 (0 + 256 * 128) = -32768 ∧
    ((-32768 : Int) + 32767) / 64 ≠ 1023 ∧
    Int.fdiv ((-32768 : Int) + 32767) 64 ≠ 1023 := by
  exact ⟨rfl, by decide, by decide, by decide⟩

/-- C4 (amended): with 16-bit samples at duty resolution 10, for every
sample `s` (encoded little-endian as bytes `lo`, `hi`), the duty value
reconstructed by the interrupt handler from the two bytes
`pwm_audio_write` appended to the ring buffer is exactly `conv16 10 lo
hi`; for every `s` other than `-32768` this equals `(s + 32767) >> 6`
(division by 2^6), with no off-by-one at `32767` or `-32767`; at the
single point `s = -32768` the 16-bit offset addition wraps and the duty
is 1023 instead. -/
theorem write16_duty10_roundtrip_amended (lo hi : Nat) (hlo : lo < 256)
    (hhi : hi < 256) :
    (pwm_audio_write ⟨16, 10⟩ [true] (rb_init 2048) [lo, hi, lo, hi]).map
        (fun r => (timer_group_isr ⟨1, 2, 10⟩ r.1 ⟨0, 0, 0⟩).leftOut) =
      some (some (conv16 10 lo hi)) ∧
    (toInt16 (lo + 256 * hi) ≠ -32768 →
      (conv16 10 lo hi : Int) = (toInt16 (lo + 256 * hi) + 32767) / 64) ∧
    (toInt16 (lo + 256 * hi) = -32768 → conv16 10 lo hi = 1023) := by
  refine ⟨?_, conv16_eq_formula lo hi, ?_⟩
  · have h1 : pwm_audio_write ⟨16, 10⟩ [true] (rb_init 2048) [lo, hi, lo, hi] =
        some (applyBytes (rb_init 2048)
          [conv16 10 lo hi, conv16 10 lo hi >>> 8,
           conv16 10 lo hi, conv16 10 lo hi >>> 8], 4, true) := by
      unfold pwm_audio_write
      rw [write_loop]
      norm_num [write_loop, emitBytes, sampleVals, emitSamples, consumedBytes,
        rb_get_free, rb_get_count, rb_init, applyBytes]
    rw [h1]
    simp only [Option.map_some']
    rw [write4_isr_roundtrip]
    rw [reconstruct16 _ (conv16_lt 10 lo hi)]
  · intro hm
    unfold conv16
    rw [hm]
    decide

/-- Witness for the amended C4 at the sample bytes `lo = 1`, `hi = 2`. -/
theorem write16_duty10_roundtrip_amended_witness :
    (pwm_audio_write ⟨16, 10⟩ [true] (rb_init 2048) [1, 2, 1, 2]).map
        (fun r => (timer_group_isr ⟨1, 2, 10⟩ r.1 ⟨0, 0, 0⟩).leftOut) =
      some (some (conv16 10 1 2)) ∧
    (toInt16 (1 + 256 * 2) ≠ -32768 →
      (conv16 10 1 2 : Int) = (toInt16 (1 + 256 * 2) + 32767) / 64) ∧
    (toInt16 (1 + 256 * 2) = -32768 → conv16 10 1 2 = 1023) :=
  write16_duty10_roundtrip_amended 1 2 (by decide) (by decide)

/-! ## Session state machine (`pwm_audio_set_param` / `pwm_audio_start`) -/

/-- pwm_audio_status_t. -/
inductive PwmStatus where
  | UN_INIT
  | IDLE
  | BUSY
deriving DecidableEq

/-- The esp_err_t values this driver returns. -/
inductive EspErr where
  | OK
  | FAIL
  | INVALID_ARG
  | INVALID_STATE
  | NO_MEM
deriving DecidableEq

/-- SAMPLE_RATE_MAX from pwm_audio.c. -/
def SAMPLE_RATE_MAX : Int := 48000

/-- SAMPLE_RATE_MIN from pwm_audio.c. -/
def SAMPLE_RATE_MIN : Int := 8000

/-- The handle fields the parameter/state APIs read and write. -/
structure Handle where
  framerate : Int
  bits_per_sample : Nat
  channel_set_num : Nat
  status : PwmStatus
deriving DecidableEq

/-- pwm_audio_set_param: rejects with ESP_ERR_INVALID_ARG while BUSY
(note: the C PWM_AUDIO_CHECK at line 486 returns ESP_ERR_INVALID_ARG,
not ESP_ERR_INVALID_STATE), validates rate/bits/channels, then stores the
three parameters (the hardware-timer reprogramming touches no modelled
state). -/
def pwm_audio_set_param (h : Handle) (rate : Int) (bits ch : Nat) :
    EspErr × Handle :=
  if ¬(h.status ≠ PwmStatus.BUSY) then (EspErr.INVALID_ARG, h)
  else if ¬(rate ≤ SAMPLE_RATE_MAX ∧ SAMPLE_RATE_MIN ≤ rate) then
    (EspErr.INVALID_ARG, h)
  else if ¬(bits = 32 ∨ bits = 16 ∨ bits = 8) then (EspErr.INVALID_ARG, h)
  else if ¬(ch ≤ 2 ∧ 1 ≤ ch) then (EspErr.INVALID_ARG, h)
  else (EspErr.OK,
    { h with framerate := rate, bits_per_sample := bits, channel_set_num := ch })

/-- pwm_audio_start: rejects with ESP_ERR_INVALID_STATE unless IDLE, then
transitions to BUSY (the timer start is external). -/
def pwm_audio_start (h : Handle) : EspErr × Handle :=
  if ¬(h.status = PwmStatus.IDLE) then (EspErr.INVALID_STATE, h)
  else (EspErr.OK, { h with status := PwmStatus.BUSY })

/-- C7 counterexample: `pwm_audio_set_param` called while BUSY returns
ESP_ERR_INVALID_ARG, which is not the InvalidState error the claim
names. -/
theorem set_param_busy_error_counterexample :
    (pwm_audio_set_param ⟨16000, 8, 2, PwmStatus.BUSY⟩ 16000 16 2).1 =
      EspErr.INVALID_ARG ∧
    EspErr.INVALID_ARG ≠ EspErr.INVALID_STATE := by
  decide

/-- C7 (amended): `pwm_audio_set_param` called while BUSY is rejected with
ESP_ERR_INVALID_ARG (not ESP_ERR_INVALID_STATE) and leaves the
configuration (framerate, bits_per_sample, channel_set_num) unchanged;
`pwm_audio_start` called twice in a row from IDLE returns
ESP_ERR_INVALID_STATE on the second call and leaves the state unchanged. -/
theorem set_param_busy_rejected_amended :
    (∀ (h : Handle) (rate : Int) (bits ch : Nat), h.status = PwmStatus.BUSY →
      pwm_audio_set_param h rate bits ch = (EspErr.INVALID_ARG, h)) ∧
    (∀ h : Handle, h.status = PwmStatus.IDLE →
      (pwm_audio_start (pwm_audio_start h).2).1 = EspErr.INVALID_STATE ∧
      (pwm_audio_start (pwm_audio_start h).2).2 = (pwm_audio_start h).2) := by
  constructor
  · intro h rate bits ch hb
    unfold pwm_audio_set_param
    rw [if_pos (by simp [hb])]
  · intro h hi
    have h1 : pwm_audio_start h =
        (EspErr.OK, { h with status := PwmStatus.BUSY }) := by
      unfold pwm_audio_start
      rw [if_neg (by simp [hi])]
    rw [h1]
    constructor <;> (unfold pwm_audio_start; simp)

/-- Witness for the amended C7 at a concrete BUSY and IDLE handle. -/
theorem set_param_busy_rejected_amended_witness :
    pwm_audio_set_param ⟨16000, 8, 2, PwmStatus.BUSY⟩ 8000 32 1 =
      (EspErr.INVALID_ARG, ⟨16000, 8, 2, PwmStatus.BUSY⟩) ∧
    (pwm_audio_start (pwm_audio_start ⟨16000, 8, 2, PwmStatus.IDLE⟩).2).1 =
      EspErr.INVALID_STATE :=
  ⟨set_param_busy_rejected_amended.1 ⟨16000, 8, 2, PwmStatus.BUSY⟩ 8000 32 1 rfl,
   (set_param_busy_rejected_amended.2 ⟨16000, 8, 2, PwmStatus.IDLE⟩ rfl).1⟩

/-! ## C8: the backpressure wake guard -/

theorem rb_put_is_give (rb : RingBuf) (b : Nat) :
    (rb_put rb b).is_give = rb.is_give := by
  unfold rb_put
  cases hw : rb_write_byte rb b with
  | none => rfl
  | some rb2 =>
      simpa using (rb_write_byte_some hw).2.2.1

theorem isr_read_is_give (rb : RingBuf) (c : Nat) :
    (isr_read rb c).1.is_give = rb.is_give := by
  unfold isr_read
  cases hr : rb_read_byte rb with
  | none => simp
  | some p =>
      obtain ⟨b, rb2⟩ := p
      simpa using (rb_read_byte_some hr).2.2.1

theorem isr_left_is_give (cfg : IsrConfig) (rb : RingBuf) (st : IsrStatics) :
    (isr_left cfg rb st).rb.is_give = rb.is_give := by
  unfold isr_left
  split_ifs <;>
    simp [apply_ite (fun r : ChanResult => r.rb.is_give), isr_read_is_give]

theorem isr_right_is_give (cfg : IsrConfig) (rb : RingBuf) (st : IsrStatics) :
    (isr_right cfg rb st).rb.is_give = rb.is_give := by
  unfold isr_right
  split_ifs <;>
    simp [apply_ite (fun r : ChanResult => r.rb.is_give), isr_read_is_give]

theorem isr_sem_spec (rb : RingBuf) :
    ((isr_sem rb).2 = true → rb.is_give = 0 ∧ (isr_sem rb).1.is_give = 1 ∧
      BUFFER_MIN_SIZE < rb_get_free (isr_sem rb).1) ∧
    ((isr_sem rb).2 = false → (isr_sem rb).1 = rb) := by
  unfold isr_sem
  split_ifs with hc
  · refine ⟨fun _ => ⟨hc.1, rfl, ?_⟩, by simp⟩
    simpa [rb_get_free, rb_get_count] using hc.2
  · exact ⟨by simp, fun _ => rfl⟩

theorem timer_group_isr_give_spec (cfg : IsrConfig) (rb : RingBuf)
    (st : IsrStatics) :
    ((timer_group_isr cfg rb st).semGive = true →
      rb.is_give = 0 ∧ (timer_group_isr cfg rb st).rb.is_give = 1 ∧
      BUFFER_MIN_SIZE < rb_get_free (timer_group_isr cfg rb st).rb) ∧
    ((timer_group_isr cfg rb st).semGive = false →
      (timer_group_isr cfg rb st).rb.is_give = rb.is_give) := by
  have hL := isr_left_is_give cfg rb st
  have hR := isr_right_is_give cfg (isr_left cfg rb st).rb (isr_left cfg rb st).st
  have hsem := isr_sem_spec
    (isr_right cfg (isr_left cfg rb st).rb (isr_left cfg rb st).st).rb
  have h1 : (timer_group_isr cfg rb st).semGive =
      (isr_sem (isr_right cfg (isr_left cfg rb st).rb
        (isr_left cfg rb st).st).rb).2 := rfl
  have h2 : (timer_group_isr cfg rb st).rb =
      (isr_sem (isr_right cfg (isr_left cfg rb st).rb
        (isr_left cfg rb st).st).rb).1 := rfl
  rw [h1, h2]
  constructor
  · intro hg
    obtain ⟨hz, hone, hfree⟩ := hsem.1 hg
    refine ⟨?_, hone, hfree⟩
    rw [← hL, ← hR]
    exact hz
  · intro hg
    rw [hsem.2 hg, hR, hL]

/-- The two execution contexts acting on the shared state: one ISR
invocation, one producer arm-and-wait (`rb_wait_semaphore`: clear
`is_give`, then take the semaphore), or one producer byte store. -/
inductive SysOp where
  | isr
  | arm
  | put (b : Nat)

/-- Shared system state: the ring buffer (with its guard flag), the ISR
statics, the binary semaphore, and a ghost counter of wakes issued since
the waiter last armed. -/
structure SysState where
  rb : RingBuf
  st : IsrStatics
  sem : Bool
  wakes : Nat

/-- One system step. -/
def sysStep (cfg : IsrConfig) (s : SysState) : SysOp → SysState
  | .isr =>
      let r := timer_group_isr cfg s.rb s.st
      { rb := r.rb, st := r.st, sem := s.sem || r.semGive,
        wakes := s.wakes + (if r.semGive then 1 else 0) }
  | .arm =>
      { rb := { s.rb with is_give := 0 }, st := s.st, sem := false, wakes := 0 }
  | .put b => { s with rb := rb_put s.rb b }

/-- Initial system state for a fresh session. -/
def sysInit (size : Nat) : SysState :=
  ⟨rb_init size, ⟨0, 0, 0⟩, false, 0⟩

/-- Run a sequence of system steps from the initial state. -/
def runSys (cfg : IsrConfig) (size : Nat) (ops : List SysOp) : SysState :=
  ops.foldl (sysStep cfg) (sysInit size)

/-- The guard-cycle invariant: at most one wake since the last arm, and a
pending wake implies the guard flag is set. -/
def SysInv (s : SysState) : Prop :=
  s.wakes ≤ 1 ∧ (s.wakes = 1 → s.rb.is_give = 1)

theorem sysStep_inv (cfg : IsrConfig) (s : SysState) (op : SysOp)
    (h : SysInv s) : SysInv (sysStep cfg s op) := by
  obtain ⟨h1, h2⟩ := h
  cases op with
  | isr =>
      have hspec := timer_group_isr_give_spec cfg s.rb s.st
      cases hg : (timer_group_isr cfg s.rb s.st).semGive with
      | true =>
          obtain ⟨hz, hone, -⟩ := hspec.1 hg
          have hw0 : s.wakes = 0 := by
            by_contra hw
            have hw1 : s.wakes = 1 := by omega
            have := h2 hw1
            omega
          exact ⟨by simp [sysStep, hg, hw0], fun _ => by
            simpa [sysStep] using hone⟩
      | false =>
          have heq := hspec.2 hg
          refine ⟨by simp [sysStep, hg]; omega, fun hw => ?_⟩
          simp only [sysStep, hg] at hw ⊢
          simp at hw
          rw [heq]
          exact h2 hw
  | arm => exact ⟨by simp [sysStep], by simp [sysStep]⟩
  | put b =>
      refine ⟨by simpa [sysStep] using h1, fun hw => ?_⟩
      simp only [sysStep] at hw ⊢
      rw [rb_put_is_give]
      exact h2 hw

theorem runSys_inv (cfg : IsrConfig) (size : Nat) (ops : List SysOp) :
    SysInv (runSys cfg size ops) := by
  have hgen : ∀ (l : List SysOp) (s : SysState), SysInv s →
      SysInv (l.foldl (sysStep cfg) s) := by
    intro l
    induction l with
    | nil => intro s hs; exact hs
    | cons op l ih =>
        intro s hs
        exact ih _ (sysStep_inv cfg s op hs)
  exact hgen ops (sysInit size) ⟨by simp [sysInit], by simp [sysInit]⟩

/-- C8: in every execution of the system step relation (ISR invocations
interleaved with producer byte stores and arm-and-wait calls), at most
one wake is outstanding per guard cycle — the ghost counter of wakes
since the waiter last cleared `is_give` never exceeds 1 — and the handler
performs a wake only when the guard `is_give` is 0 and
`rb_get_free() > BUFFER_MIN_SIZE`, setting `is_give` to 1 together with
the wake. -/
theorem isr_single_wake_per_guard_cycle :
    (∀ (cfg : IsrConfig) (size : Nat) (ops : List SysOp),
      (runSys cfg size ops).wakes ≤ 1) ∧
    (∀ (cfg : IsrConfig) (rb : RingBuf) (st : IsrStatics),
      (timer_group_isr cfg rb st).semGive = true →
        rb.is_give = 0 ∧ (timer_group_isr cfg rb st).rb.is_give = 1 ∧
        BUFFER_MIN_SIZE < rb_get_free (timer_group_isr cfg rb st).rb) :=
  ⟨fun cfg size ops => (runSys_inv cfg size ops).1,
   fun cfg rb st => (timer_group_isr_give_spec cfg rb st).1⟩

/-- Witness exercising C8 on a concrete run. -/
theorem isr_single_wake_per_guard_cycle_witness :
    (runSys ⟨3, 2, 10⟩ 2048 [SysOp.put 1, SysOp.arm, SysOp.isr]).wakes ≤ 1 :=
  isr_single_wake_per_guard_cycle.1 ⟨3, 2, 10⟩ 2048
    [SysOp.put 1, SysOp.arm, SysOp.isr]
